import Mathlib

set_option autoImplicit false

namespace ADK

/-- Python strings are modelled as lists of characters, so that slicing,
splitting and joining carry the exact Python semantics. -/
abbrev PyStr := List Char

/-- Python `s.split(c)` for a one-character separator (as used with newline). -/
def pySplit (sep : Char) (s : PyStr) : List PyStr := s.splitOn sep

/-- Python `c.join(parts)` for a one-character separator. -/
def pyJoin (sep : Char) (parts : List PyStr) : PyStr := [sep].intercalate parts

/-- Python `sep.join(parts)` for a multi-character separator. -/
def pyJoinStr (sep : PyStr) (parts : List PyStr) : PyStr := sep.intercalate parts

/-- Characters treated as whitespace by Python `str.strip()`. -/
def pyIsSpace (c : Char) : Bool :=
  c == ' ' || c == '\t' || c == '\n' || c == '\r' || c == '\x0b' || c == '\x0c'

/-- Drop the characters satisfying `p` from both ends of a string
(the common core of the Python `str.strip` family). -/
def pyStripWith (p : Char → Bool) (s : PyStr) : PyStr :=
  ((s.dropWhile p).reverse.dropWhile p).reverse

/-- Python `s.strip()`. -/
def pyStrip (s : PyStr) : PyStr := pyStripWith pyIsSpace s

/-- Python `s.strip(chars)`: strips any of the given characters from both ends. -/
def pyStripChars (cs : List Char) (s : PyStr) : PyStr :=
  pyStripWith (fun c => cs.contains c) s

/-- Python list/string slice `l[a:b]` for `0 ≤ a ≤ b`. -/
def pySlice {α : Type} (l : List α) (a b : Nat) : List α := (l.drop a).take (b - a)

/-- Python `str(n)` for a nonnegative integer. -/
def pyShowNat (n : Nat) : PyStr := Nat.toDigits 10 n

/-- Metadata values persisted with an element or summary: the dictionaries
built by the code hold strings and nonnegative ints only. -/
inductive MetaVal where
  | s (v : PyStr)
  | n (v : Nat)
  deriving DecidableEq, Repr

/-- Model of class `CodeElement` (indexing_agent.py): one extracted unit.
The `hash` attribute computed in `__init__` is the function
`CodeElement.hash` below. -/
structure CodeElement where
  name : PyStr
  element_type : PyStr
  file_path : PyStr
  start_line : Nat
  end_line : Nat
  content : PyStr
  docstring : PyStr
  deriving DecidableEq, Repr

/-- Model of `CodeElement._compute_hash`: the MD5 digest of the string
`f"(name):(element_type):(content)"` (colon-separated).  MD5 itself is an
external, fixed, deterministic function of this digest input, so the model
keeps the digest input itself; this preserves exactly the property the code
relies on (identical name/type/content gives an identical hash, and the hash
changes whenever that input changes). -/
def CodeElement.hash (e : CodeElement) : PyStr :=
  e.name ++ [':'] ++ e.element_type ++ [':'] ++ e.content

/-- Model of `CodeElement.to_dict`: the metadata dictionary stored with an
element, in the insertion order of the Python dict literal. -/
def CodeElement.to_dict (e : CodeElement) : List (PyStr × MetaVal) :=
  [("name".toList, .s e.name),
   ("element_type".toList, .s e.element_type),
   ("file_path".toList, .s e.file_path),
   ("start_line".toList, .n e.start_line),
   ("end_line".toList, .n e.end_line),
   ("content".toList, .s e.content),
   ("docstring".toList, .s e.docstring),
   ("hash".toList, .s e.hash)]

/-- A line is a markdown heading when its stripped form starts with `#`
(`line.strip().startswith("#")` in `_parse_markdown`). -/
def isHeading (line : PyStr) : Bool := ['#'].isPrefixOf (pyStrip line)

/-- Heading text as computed by `_parse_markdown`: `line.strip("#").strip()`. -/
def headingName (line : PyStr) : PyStr := pyStrip (pyStripChars ['#'] line)

/-- Python truthiness of `any(l.strip() for l in sec)`. -/
def sectionNonBlank (sec : List PyStr) : Bool :=
  sec.any (fun l => !(pyStrip l).isEmpty)

/-- Loop state of `_parse_markdown`. -/
structure MdState where
  elements : List CodeElement
  current_section : List PyStr
  current_section_start : Nat
  current_heading : PyStr

/-- Elements emitted when `_parse_markdown` closes the current section
(`if current_section and any(l.strip() for l in current_section)`), with
`end_line = endLine` and content `"\n".join(current_section).strip()`. -/
def mdFlush (fp : PyStr) (st : MdState) (endLine : Nat) : List CodeElement :=
  if !st.current_section.isEmpty && sectionNonBlank st.current_section then
    [{ name := st.current_heading,
       element_type := "markdown_section".toList,
       file_path := fp,
       start_line := st.current_section_start,
       end_line := endLine,
       content := pyStrip (pyJoin '\n' st.current_section),
       docstring := [] }]
  else []

/-- The `for i, line in enumerate(lines)` loop of `_parse_markdown`;
`i` is the 0-based index of the next line. -/
def parse_markdown_go (fp : PyStr) : List PyStr → Nat → MdState → MdState
  | [], _, st => st
  | line :: rest, i, st =>
    if isHeading line then
      parse_markdown_go fp rest (i + 1)
        { elements := st.elements ++ mdFlush fp st i,
          current_section := [],
          current_section_start := i + 2,
          current_heading := headingName line }
    else
      parse_markdown_go fp rest (i + 1)
        { st with current_section := st.current_section ++ [line] }

/-- Model of `IndexingAgent._parse_markdown`. -/
def parse_markdown (fp content : PyStr) : List CodeElement :=
  let lines := pySplit '\n' content
  let st := parse_markdown_go fp lines 0
    { elements := [], current_section := [], current_section_start := 1,
      current_heading := "Introduction".toList }
  st.elements ++ mdFlush fp st lines.length

/-- One iteration body of the loop in `_simple_text_chunks`: the chunk for
window offset `i` is emitted only when `chunk_content.strip()` is truthy;
`total` is `len(lines)`. -/
def chunkElement (fp : PyStr) (total i : Nat) (chunk_lines : List PyStr) :
    List CodeElement :=
  if !(pyStrip (pyJoin '\n' chunk_lines)).isEmpty then
    [{ name := "chunk_".toList ++ pyShowNat (i / 50),
       element_type := "text_chunk".toList,
       file_path := fp,
       start_line := i + 1,
       end_line := min (i + 50) total,
       content := pyJoin '\n' chunk_lines,
       docstring := [] }]
  else []

/-- The `for i in range(0, len(lines), chunk_size)` loop of
`_simple_text_chunks`, with `chunk_size = 50`; the list argument is
`lines[i:]`. -/
def simple_text_chunks_go (fp : PyStr) (total : Nat) :
    Nat → List PyStr → Nat → List CodeElement
  | _, [], _ => []
  | 0, _ :: _, _ => []
  | fuel + 1, l :: ls, i =>
    chunkElement fp total i ((l :: ls).take 50) ++
      simple_text_chunks_go fp total fuel ((l :: ls).drop 50) (i + 50)

/-- Model of `IndexingAgent._simple_text_chunks`.  The loop consumes at
least one line per iteration, so `len(lines)` iterations always suffice;
the explicit iteration bound keeps the recursion structural. -/
def simple_text_chunks (fp content : PyStr) : List CodeElement :=
  let lines := pySplit '\n' content
  simple_text_chunks_go fp lines.length lines.length lines 0

/-- The fields of a tree-sitter node consumed by
`_extract_python_element` / `_extract_python_docstring`: node type, 0-based
start and end rows, position of the `name` child, and the rows of the first
string-literal statement of the body when the docstring helper finds one.
The tree itself is produced by the external tree-sitter library. -/
structure TSNode where
  node_type : PyStr
  start_row : Nat
  end_row : Nat
  name_row : Nat
  name_col_start : Nat
  name_col_end : Nat
  doc_rows : Option (Nat × Nat)
  deriving DecidableEq, Repr

/-- Model of `_extract_python_docstring` post-processing:
`"\n".join(lines[s:e+1]).strip().strip(quote).strip(singlequote).strip()`
applied to the rows of the docstring string node, empty when absent
(`docstring = ... or ""`). -/
def docstringOf (lines : List PyStr) : Option (Nat × Nat) → PyStr
  | none => []
  | some (s, e) =>
      pyStrip (pyStripChars [Char.ofNat 39]
        (pyStripChars ['"'] (pyStrip (pyJoin '\n' (pySlice lines s (e + 1))))))

/-- Model of `IndexingAgent._extract_python_element`. -/
def extract_python_element (lines : List PyStr) (fp : PyStr) (node : TSNode) :
    Option CodeElement :=
  let start_line := node.start_row + 1
  let end_line := node.end_row + 1
  let content := pyJoin '\n' (pySlice lines (start_line - 1) end_line)
  let name := pySlice (lines.getD node.name_row [])
    node.name_col_start node.name_col_end
  if node.node_type = "function_def".toList then
    some { name := name, element_type := "function".toList, file_path := fp,
           start_line := start_line, end_line := end_line, content := content,
           docstring := docstringOf lines node.doc_rows }
  else if node.node_type = "class_definition".toList then
    some { name := name, element_type := "class".toList, file_path := fp,
           start_line := start_line, end_line := end_line, content := content,
           docstring := docstringOf lines node.doc_rows }
  else if node.node_type = "import_statement".toList ∨
      node.node_type = "import_from_statement".toList then
    some { name := "import".toList, element_type := "import".toList,
           file_path := fp, start_line := start_line, end_line := end_line,
           content := content, docstring := [] }
  else none

/-- The fields of a tree-sitter node consumed by `_extract_js_ts_element`:
the optional `name` child is `(start_row, start_col, end_col)`. -/
structure JSNode where
  node_type : PyStr
  start_row : Nat
  end_row : Nat
  name_node : Option (Nat × Nat × Nat)
  deriving DecidableEq, Repr

/-- Model of `IndexingAgent._extract_js_ts_element`. -/
def extract_js_ts_element (lines : List PyStr) (fp : PyStr) (node : JSNode) :
    Option CodeElement :=
  let start_line := node.start_row + 1
  let end_line := node.end_row + 1
  let content := pyJoin '\n' (pySlice lines (start_line - 1) end_line)
  if node.node_type = "function_declaration".toList then
    match node.name_node with
    | some (r, a, b) =>
        some { name := pySlice (lines.getD r []) a b,
               element_type := "function".toList, file_path := fp,
               start_line := start_line, end_line := end_line,
               content := content, docstring := [] }
    | none => none
  else if node.node_type = "class_declaration".toList then
    match node.name_node with
    | some (r, a, b) =>
        some { name := pySlice (lines.getD r []) a b,
               element_type := "class".toList, file_path := fp,
               start_line := start_line, end_line := end_line,
               content := content, docstring := [] }
    | none => none
  else if node.node_type = "import_statement".toList then
    some { name := "import".toList, element_type := "import".toList,
           file_path := fp, start_line := start_line, end_line := end_line,
           content := content, docstring := [] }
  else none

/-- Model of `_create_file_summary`: the per-file summary record (the keys
of the returned dict, in order). -/
structure FileSummary where
  file_path : PyStr
  file_type : PyStr
  line_count : Nat
  element_count : Nat
  elements_by_type_str : PyStr
  summary : PyStr
  deriving DecidableEq, Repr

/-- Python `Path(p).name`: the final path component. -/
def pathBaseName (p : PyStr) : PyStr := (pySplit '/' p).getLastD []

/-- Per-type element counts, as built by `_create_file_summary` from
`set(e.element_type for e in elements)`.  CPython iterates that set in a
hash-determined order that is fixed within one interpreter process; the
model uses first-occurrence order, which is one such fixed deterministic
order (the claims checked here depend only on determinism, never on which
order the set iteration takes). -/
def typeCounts (els : List CodeElement) : List (PyStr × Nat) :=
  ((els.map (fun e => e.element_type)).dedup).map
    (fun t => (t, (els.filter (fun e => e.element_type = t)).length))

/-- The `elements_by_type_str` field: `", ".join(f"(k): (v)")` over the
type counts, or `"none"` when there are no elements. -/
def typeCountsStr (els : List CodeElement) : PyStr :=
  if typeCounts els = [] then "none".toList
  else pyJoinStr ", ".toList
    ((typeCounts els).map (fun p => p.1 ++ ": ".toList ++ pyShowNat p.2))

/-- Model of `IndexingAgent._create_file_summary`; `relPath` is
`file_path.relative_to(self.project_root)` and `fullPath` the discovered
path whose `.name` feeds the summary sentence. -/
def create_file_summary (relPath ext content fullPath : PyStr)
    (els : List CodeElement) : FileSummary :=
  { file_path := relPath,
    file_type := ext,
    line_count := (pySplit '\n' content).length,
    element_count := els.length,
    elements_by_type_str := typeCountsStr els,
    summary := "File ".toList ++ pathBaseName fullPath ++
      " contains ".toList ++ pyShowNat els.length ++ " code elements".toList }

/-- Metadata dictionary stored with a file summary (`metadatas=[summary]`). -/
def FileSummary.to_meta (s : FileSummary) : List (PyStr × MetaVal) :=
  [("file_path".toList, .s s.file_path),
   ("file_type".toList, .s s.file_type),
   ("line_count".toList, .n s.line_count),
   ("element_count".toList, .n s.element_count),
   ("elements_by_type_str".toList, .s s.elements_by_type_str),
   ("summary".toList, .s s.summary)]

/-- One persisted row of a ChromaDB collection. -/
structure StoreEntry where
  document : PyStr
  embedding : List Int
  metadata : List (PyStr × MetaVal)
  deriving DecidableEq, Repr

/-- A ChromaDB collection modelled as a map from id to entry (the
`upsert` contract: insert-or-overwrite keyed by id, never two entries with
one id, so the id-indexed map is the whole observable state). -/
def Store : Type := PyStr → Option StoreEntry

/-- Upsert of a single id. -/
def Store.upsert1 (st : Store) (id : PyStr) (e : StoreEntry) : Store :=
  fun k => if k = id then some e else st k

/-- Batch upsert: the id/entry pairs are written in list order. -/
def Store.upsertMany (st : Store) (ws : List (PyStr × StoreEntry)) : Store :=
  ws.foldl (fun m p => Store.upsert1 m p.1 p.2) st

/-- A collection with no rows. -/
def Store.empty : Store := fun _ => none

/-- External deterministic collaborators of one `IndexingAgent`: the
depth-first lists of matched tree-sitter nodes for a source text (the
external parser is a pure function of the text), and
`embedding_model.encode` (deterministic for fixed model configuration,
spec section 4.3). -/
structure ExternalCtx where
  tsNodesPy : PyStr → List TSNode
  tsNodesJs : PyStr → List JSNode
  embed : PyStr → List Int

/-- Model of `_parse_with_tree_sitter` for a Python file: the elements are
the successful extractions over the traversal order (the `traverse_node`
type test is subsumed by `extract_python_element` returning `None` on any
other node type). -/
def parse_with_tree_sitter_py (c : ExternalCtx) (fp content : PyStr) :
    List CodeElement :=
  (c.tsNodesPy content).filterMap
    (extract_python_element (pySplit '\n' content) fp)

/-- Model of `_parse_with_tree_sitter` for a js/ts/tsx file. -/
def parse_with_tree_sitter_js (c : ExternalCtx) (fp content : PyStr) :
    List CodeElement :=
  (c.tsNodesJs content).filterMap
    (extract_js_ts_element (pySplit '\n' content) fp)

/-- The parser dispatch of `_index_file`: tree-sitter for the extensions in
`self.parsers`, the markdown parser for `.md`, text chunking otherwise. -/
def parse_file (c : ExternalCtx) (fp ext content : PyStr) :
    List CodeElement :=
  if ext = ".py".toList then parse_with_tree_sitter_py c fp content
  else if ext = ".js".toList ∨ ext = ".ts".toList ∨ ext = ".tsx".toList then
    parse_with_tree_sitter_js c fp content
  else if ext = ".md".toList then parse_markdown fp content
  else simple_text_chunks fp content

/-- The searchable text built in `_store_elements`. -/
def searchableText (e : CodeElement) : PyStr :=
  e.name ++ [' '] ++ e.element_type ++ ['\n'] ++ e.content ++
    (if e.docstring.isEmpty then [] else '\n' :: e.docstring)

/-- The storage id built in `_store_elements`:
`f"(file_path):(start_line):(hash)"`. -/
def elementId (e : CodeElement) : PyStr :=
  e.file_path ++ [':'] ++ pyShowNat e.start_line ++ [':'] ++ e.hash

/-- The id/entry pairs written by `_store_elements` for a batch of
elements (documents, embeddings, metadatas, ids are parallel lists). -/
def elementWrites (c : ExternalCtx) (els : List CodeElement) :
    List (PyStr × StoreEntry) :=
  els.map (fun e =>
    (elementId e,
     { document := searchableText e,
       embedding := c.embed (searchableText e),
       metadata := e.to_dict }))

/-- Model of `IndexingAgent._store_elements` (early return on `[]`). -/
def store_elements (c : ExternalCtx) (els : List CodeElement) (st : Store) :
    Store :=
  if els.isEmpty then st else st.upsertMany (elementWrites c els)

/-- The single write of `_store_file_summary`: id is the summary file path. -/
def summaryWrite (c : ExternalCtx) (s : FileSummary) : PyStr × StoreEntry :=
  (s.file_path,
   { document := s.summary,
     embedding := c.embed s.summary,
     metadata := s.to_meta })

/-- Model of `IndexingAgent._store_file_summary`. -/
def store_file_summary (c : ExternalCtx) (s : FileSummary) (st : Store) :
    Store :=
  st.upsert1 (summaryWrite c s).1 (summaryWrite c s).2

/-- One source file as discovered by `index_codebase` file enumeration:
its path relative to the project root, its extension (`Path.suffix`) and
the result of `open(...).read()` — `.error` models the `OSError` the read
raises for an unreadable file (the call uses `errors="ignore"`, so decoding
itself never raises, but opening or reading can). -/
structure SrcFile where
  relPath : PyStr
  ext : PyStr
  readResult : Except PyStr PyStr
  deriving Repr

/-- Python `str(self.project_root / rel)`: the discovered path handed to
`_index_file` is the root-joined path. -/
def SrcFile.fullPath (root : PyStr) (f : SrcFile) : PyStr :=
  root ++ ['/'] ++ f.relPath

/-- The two persistent collections owned by one indexing agent. -/
structure IndexState where
  code_store : Store
  file_store : Store

/-- The run report returned by `index_codebase`. -/
structure RunReport where
  indexed_files : List PyStr
  total_elements : Nat
  errors : List PyStr
  deriving DecidableEq, Repr

/-- Outcome of one `index_codebase` call: either the report together with
the final collection state, or an exception propagated to the caller —
the persistent store keeps whatever was written before the raise. -/
inductive RunResult where
  | ok (st : IndexState) (report : RunReport)
  | raised (st : IndexState)

/-- The `for file_path in code_files` loop of `index_codebase`: each file is
read (a raise propagates: there is no try/except in `index_codebase` or
`_index_file`), parsed, summarised and its summary upserted; the elements
are accumulated and written in one batch after the loop; `errors` is the
list initialised at the top of `index_codebase`, which nothing appends to. -/
def index_codebase_go (c : ExternalCtx) (root : PyStr) :
    List SrcFile → IndexState → List PyStr → List CodeElement → RunResult
  | [], st, files, elems =>
      .ok { st with code_store := store_elements c elems st.code_store }
        { indexed_files := files, total_elements := elems.length, errors := [] }
  | f :: rest, st, files, elems =>
      match f.readResult with
      | .error _ => .raised st
      | .ok content =>
          let els := parse_file c (SrcFile.fullPath root f) f.ext content
          let summ := create_file_summary f.relPath f.ext content
            (SrcFile.fullPath root f) els
          index_codebase_go c root rest
            { st with file_store := store_file_summary c summ st.file_store }
            (files ++ [f.relPath]) (elems ++ els)

/-- Model of `IndexingAgent.index_codebase`, over the deterministic file
enumeration (the `rglob` + ignore-directory filter is a pure function of the
unchanged file system, so two runs see the same `files` list). -/
def index_codebase (c : ExternalCtx) (root : PyStr) (files : List SrcFile)
    (st : IndexState) : RunResult :=
  index_codebase_go c root files st [] []

/-- A value held in a ChromaDB result row: either a metadata dictionary or
some structurally different object (what `isinstance(metadata, dict)`
distinguishes). -/
inductive PyObj where
  | dict (d : List (PyStr × MetaVal))
  | other (tag : PyStr)
  deriving DecidableEq, Repr

/-- ChromaDB `collection.query(...)` result: a dict of optional parallel
nested lists (one inner list per query embedding); distances are floats,
modelled as rationals. -/
structure QueryResult where
  documents : Option (List (List PyStr))
  metadatas : Option (List (List PyObj))
  distances : Option (List (List Rat))

/-- ChromaDB `collection.get(...)` result: flat optional parallel lists. -/
structure GetResult where
  documents : Option (List PyStr)
  metadatas : Option (List PyObj)

/-- A ChromaDB collection as the search tool consumes it: its query and get
endpoints are external functions of the request. -/
structure Collection where
  query : List Int → Nat → Option (PyStr × MetaVal) → QueryResult
  get_where : List (PyStr × MetaVal) → Option Nat → GetResult
  get_ids : List PyStr → GetResult

/-- The apostrophe character (used by the f-string messages). -/
def apos : Char := Char.ofNat 39

/-- Sentinel returned when `code_collection` is `None`. -/
def notIndexedCodeMsg : PyStr :=
  "No code index found. Please run indexing first.".toList

/-- Sentinel returned when `file_collection` is `None`. -/
def notIndexedFileMsg : PyStr :=
  "No file index found. Please run indexing first.".toList

/-- Message `f"No results found for query: (query)"` with quotes. -/
def noResultsMsg (q : PyStr) : PyStr :=
  "No results found for query: ".toList ++ apos :: q ++ [apos]

/-- Message `f"Inconsistent result data for query: (query)"` with quotes. -/
def inconsistentMsg (q : PyStr) : PyStr :=
  "Inconsistent result data for query: ".toList ++ apos :: q ++ [apos]

/-- Message `f"No files found for query: (query)"` with quotes. -/
def noFilesMsg (q : PyStr) : PyStr :=
  "No files found for query: ".toList ++ apos :: q ++ [apos]

/-- Message `f"Inconsistent file data for query: (query)"` with quotes. -/
def inconsistentFileMsg (q : PyStr) : PyStr :=
  "Inconsistent file data for query: ".toList ++ apos :: q ++ [apos]

/-- The truthiness-guarded head extraction the search methods perform on a
nested optional result list: `none` exactly when
`not xs or not xs[0]` would send Python to the early no-results return. -/
def firstList {α : Type} : Option (List (List α)) → Option (List α)
  | none => none
  | some [] => none
  | some (x :: _) => if x.isEmpty then none else some x

/-- Python `metadata.get(k)`. -/
def metaGet (md : List (PyStr × MetaVal)) (k : PyStr) : Option MetaVal :=
  (md.find? (fun p => p.1 == k)).map (fun p => p.2)

/-- Rendering of `metadata.get(k, "unknown")` inside an f-string. -/
def metaShow : Option MetaVal → PyStr
  | some (.s v) => v
  | some (.n v) => pyShowNat v
  | none => "unknown".toList

/-- Python truthiness of an optional metadata value. -/
def metaTruthy : Option MetaVal → Bool
  | none => false
  | some (.s v) => !v.isEmpty
  | some (.n v) => v != 0

/-- Python `str(v)` for a metadata value. -/
def pyStrOf : MetaVal → PyStr
  | .s v => v
  | .n v => pyShowNat v

/-- One formatted row of `semantic_search` (`result_text` accumulation);
`showSim` renders `f"(1-distance):.3f"` — the external CPython float
formatting, irrelevant to the claims beyond determinism. -/
def formatResultRow (showSim : Rat → PyStr) (i : Nat)
    (md : List (PyStr × MetaVal)) (dist : Rat) : PyStr :=
  let doc :=
    if metaTruthy (metaGet md "docstring".toList) then
      let d := pyStrOf ((metaGet md "docstring".toList).getD (.s []))
      let d := if 100 < d.length then d.take 100 ++ "...".toList else d
      "  Docstring: ".toList ++ d ++ ['\n']
    else []
  let cstr :=
    match (metaGet md "content".toList).getD (.s []) with
    | .s v => if 300 < v.length then v.take 300 ++ "...".toList else v
    | .n v => pyShowNat v
  "Result ".toList ++ pyShowNat (i + 1) ++ " (similarity: ".toList ++
    showSim (1 - dist) ++ "):\n".toList ++
    "  Name: ".toList ++ metaShow (metaGet md "name".toList) ++ ['\n'] ++
    "  Type: ".toList ++ metaShow (metaGet md "element_type".toList) ++ ['\n'] ++
    "  File: ".toList ++ metaShow (metaGet md "file_path".toList) ++ ['\n'] ++
    "  Lines: ".toList ++ metaShow (metaGet md "start_line".toList) ++ ['-'] ++
    metaShow (metaGet md "end_line".toList) ++ ['\n'] ++
    doc ++ "  Content:\n".toList ++ cstr ++ ['\n'] ++
    List.replicate 50 '-' ++ ['\n']

/-- The `for i, (doc, metadata, distance) in enumerate(zip(...))` loop of
`semantic_search`: a row whose metadata is not a dict is skipped
(`continue`), every other row appends its formatted text. -/
def format_code_rows (showSim : Rat → PyStr) :
    List (Nat × (PyStr × (PyObj × Rat))) → List PyStr
  | [] => []
  | (i, (_, (m, dist))) :: rest =>
    match m with
    | .dict md => formatResultRow showSim i md dist ::
        format_code_rows showSim rest
    | .other _ => format_code_rows showSim rest

/-- The result-shaping stage of `semantic_search`, applied to whatever the
store query returned: the truthiness guards, the three-way length check and
the formatting loop. -/
def process_query_result (showSim : Rat → PyStr) (q : PyStr)
    (r : QueryResult) : PyStr :=
  match firstList r.documents, firstList r.metadatas, firstList r.distances with
  | some doc_list, some meta_list, some dist_list =>
      if doc_list.length = meta_list.length ∧
          meta_list.length = dist_list.length then
        pyJoin '\n'
          (format_code_rows showSim ((doc_list.zip (meta_list.zip dist_list)).enum))
      else inconsistentMsg q
  | _, _, _ => noResultsMsg q

/-- The where filter built by `semantic_search` from its
`file_type_filter` argument: an equality filter on the `file_type`
metadata field. -/
def where_filter_of (ftf : Option PyStr) : Option (PyStr × MetaVal) :=
  ftf.map (fun v => ("file_type".toList, .s v))

/-- Model of class `VectorSearchTool`: the two collection handles (either
may be `None` when nothing was ever indexed), the embedding model and the
float renderer. -/
structure VectorSearchTool where
  code_collection : Option Collection
  file_collection : Option Collection
  embedq : PyStr → List Int
  showSim : Rat → PyStr

/-- Model of `VectorSearchTool.__init__` collection lookup: `get_collection`
raises for a collection that was never created and the `except` arm then
sets both handles to `None` (whichever lookup raises first). -/
def vst_init (embedq : PyStr → List Int) (showSim : Rat → PyStr)
    (persisted : Option Collection × Option Collection) : VectorSearchTool :=
  match persisted with
  | (some c, some f) =>
      { code_collection := some c, file_collection := some f,
        embedq := embedq, showSim := showSim }
  | _ =>
      { code_collection := none, file_collection := none,
        embedq := embedq, showSim := showSim }

/-- Model of `VectorSearchTool.semantic_search`. -/
def VectorSearchTool.semantic_search (t : VectorSearchTool) (query : PyStr)
    (max_results : Nat) (file_type_filter : Option PyStr) : PyStr :=
  match t.code_collection with
  | none => notIndexedCodeMsg
  | some col =>
      process_query_result t.showSim query
        (col.query (t.embedq query) max_results (where_filter_of file_type_filter))

/-- One formatted row of `find_files_by_content`. -/
def formatFileRow (showSim : Rat → PyStr) (i : Nat)
    (md : List (PyStr × MetaVal)) (dist : Rat) : PyStr :=
  let contains :=
    if metaTruthy (metaGet md "elements_by_type_str".toList) then
      "  Contains: ".toList ++
        pyStrOf ((metaGet md "elements_by_type_str".toList).getD (.s [])) ++ ['\n']
    else []
  let summ :=
    match metaGet md "summary".toList with
    | some v => pyStrOf v
    | none => "No summary available".toList
  "File ".toList ++ pyShowNat (i + 1) ++ " (similarity: ".toList ++
    showSim (1 - dist) ++ "):\n".toList ++
    "  Path: ".toList ++ metaShow (metaGet md "file_path".toList) ++ ['\n'] ++
    "  Type: ".toList ++ metaShow (metaGet md "file_type".toList) ++ ['\n'] ++
    "  Lines: ".toList ++ metaShow (metaGet md "line_count".toList) ++ ['\n'] ++
    "  Elements: ".toList ++ metaShow (metaGet md "element_count".toList) ++ ['\n'] ++
    "  Summary: ".toList ++ summ ++ ['\n'] ++
    contains ++ List.replicate 40 '-' ++ ['\n']

/-- The formatting loop of `find_files_by_content` (non-dict rows are
skipped). -/
def format_file_rows (showSim : Rat → PyStr) :
    List (Nat × (PyStr × (PyObj × Rat))) → List PyStr
  | [] => []
  | (i, (_, (m, dist))) :: rest =>
    match m with
    | .dict md => formatFileRow showSim i md dist ::
        format_file_rows showSim rest
    | .other _ => format_file_rows showSim rest

/-- The result-shaping stage of `find_files_by_content` (the method body is
wrapped in try/except, but every operation of this stage is total on the
store result types, so the except arm is unreachable in the model). -/
def process_file_query_result (showSim : Rat → PyStr) (q : PyStr)
    (r : QueryResult) : PyStr :=
  match firstList r.documents, firstList r.metadatas, firstList r.distances with
  | some doc_list, some meta_list, some dist_list =>
      if doc_list.length = meta_list.length ∧
          meta_list.length = dist_list.length then
        pyJoin '\n'
          (format_file_rows showSim ((doc_list.zip (meta_list.zip dist_list)).enum))
      else inconsistentFileMsg q
  | _, _, _ => noFilesMsg q

/-- Model of `VectorSearchTool.find_files_by_content`. -/
def VectorSearchTool.find_files_by_content (t : VectorSearchTool)
    (query : PyStr) (max_results : Nat) : PyStr :=
  match t.file_collection with
  | none => notIndexedFileMsg
  | some col =>
      process_file_query_result t.showSim query
        (col.query (t.embedq query) max_results none)

/-- Python `str.title()` restricted to ASCII letters (the element type
names the code builds are ASCII). -/
def pyTitleGo : Bool → List Char → List Char
  | _, [] => []
  | prevAlpha, c :: cs =>
      (if prevAlpha then c.toLower else c.toUpper) :: pyTitleGo c.isAlpha cs

/-- Python `s.title()`. -/
def pyTitle (s : PyStr) : PyStr := pyTitleGo false s

/-- Python `s.upper()` restricted to ASCII letters. -/
def pyUpper (s : PyStr) : PyStr := s.map Char.toUpper

/-- Message `f"No (element_type) elements found."`. -/
def noTypeMsg (et : PyStr) : PyStr :=
  "No ".toList ++ et ++ " elements found.".toList

/-- The formatting loop of `find_elements_by_type` (non-dict rows are
skipped). -/
def format_type_rows (et : PyStr) : List (Nat × (PyStr × PyObj)) → List PyStr
  | [] => []
  | (i, (_, m)) :: rest =>
    match m with
    | .dict md =>
        (pyTitle et ++ [' '] ++ pyShowNat (i + 1) ++ ":\n".toList ++
          "  Name: ".toList ++ metaShow (metaGet md "name".toList) ++ ['\n'] ++
          "  File: ".toList ++ metaShow (metaGet md "file_path".toList) ++ ['\n'] ++
          "  Lines: ".toList ++ metaShow (metaGet md "start_line".toList) ++ ['-'] ++
          metaShow (metaGet md "end_line".toList) ++ ['\n'] ++
          List.replicate 30 '-' ++ ['\n']) :: format_type_rows et rest
    | .other _ => format_type_rows et rest

/-- Model of `VectorSearchTool.find_elements_by_type` (try/except wrapper
elided: the stage is total on the store result types). -/
def VectorSearchTool.find_elements_by_type (t : VectorSearchTool)
    (element_type : PyStr) (max_results : Nat) : PyStr :=
  match t.code_collection with
  | none => notIndexedCodeMsg
  | some col =>
      let results := col.get_where
        [("element_type".toList, .s element_type)] (some max_results)
      match results.documents, results.metadatas with
      | some docs, some mds =>
          if docs.isEmpty || mds.isEmpty then noTypeMsg element_type
          else pyJoin '\n' (format_type_rows element_type ((docs.zip mds).enum))
      | _, _ => noTypeMsg element_type

/-- Message `f"No structure information found for (file_path)"`. -/
def noStructureMsg (fp : PyStr) : PyStr :=
  "No structure information found for ".toList ++ fp

/-- Group key for one element row in `get_file_structure`:
`metadata.get("element_type", "unknown")`, kept only when it is a string. -/
def groupKey (md : List (PyStr × MetaVal)) : Option PyStr :=
  match metaGet md "element_type".toList with
  | some (.s v) => some v
  | none => some "unknown".toList
  | some (.n _) => none

/-- Insertion into the `elements_by_type` dict of `get_file_structure`
(Python dicts keep first-seen key order). -/
def groupInsert (gs : List (PyStr × List (List (PyStr × MetaVal))))
    (k : PyStr) (md : List (PyStr × MetaVal)) :
    List (PyStr × List (List (PyStr × MetaVal))) :=
  if gs.any (fun g => g.1 = k) then
    gs.map (fun g => if g.1 = k then (g.1, g.2 ++ [md]) else g)
  else gs ++ [(k, [md])]

/-- The grouping loop of `get_file_structure`: non-dict rows and non-string
element types are skipped. -/
def groupByType (mds : List PyObj) :
    List (PyStr × List (List (PyStr × MetaVal))) :=
  mds.foldl
    (fun gs m =>
      match m with
      | .dict md =>
          match groupKey md with
          | some k => groupInsert gs k md
          | none => gs
      | .other _ => gs) []

/-- The formatted lines for one element-type group of
`get_file_structure`. -/
def formatGroup (g : PyStr × List (List (PyStr × MetaVal))) : List PyStr :=
  (pyUpper g.1 ++ "S:".toList) ::
    g.2.map (fun md =>
      "  - ".toList ++ metaShow (metaGet md "name".toList) ++
        " (lines ".toList ++ metaShow (metaGet md "start_line".toList) ++
        ['-'] ++ metaShow (metaGet md "end_line".toList) ++ [')']) ++ [[]]

/-- Model of `VectorSearchTool.get_file_structure`. -/
def VectorSearchTool.get_file_structure (t : VectorSearchTool)
    (file_path : PyStr) : PyStr :=
  match t.code_collection with
  | none => notIndexedCodeMsg
  | some col =>
      let results := col.get_where [("file_path".toList, .s file_path)] none
      match results.metadatas with
      | none => noStructureMsg file_path
      | some mds =>
          if mds.isEmpty then noStructureMsg file_path
          else
            let file_info :=
              match t.file_collection with
              | none => []
              | some fcol =>
                  match (fcol.get_ids [file_path]).metadatas with
                  | some (PyObj.dict md :: _) =>
                      "File: ".toList ++ file_path ++ ['\n'] ++
                        "Type: ".toList ++ metaShow (metaGet md "file_type".toList) ++ ['\n'] ++
                        "Lines: ".toList ++ metaShow (metaGet md "line_count".toList) ++ ['\n'] ++
                        "Total elements: ".toList ++
                        metaShow (metaGet md "element_count".toList) ++ "\n\n".toList
                  | _ => []
            pyJoin '\n' (file_info :: ((groupByType mds).map formatGroup).flatten)

/-- The `element_types` parsing of `search_code_tool`:
`[t.strip() for t in element_types.split(",") if t.strip()]`. -/
def parse_types_list (element_types : PyStr) : List PyStr :=
  ((pySplit ',' element_types).map pyStrip).filter (fun t => !t.isEmpty)

/-- Model of the module-level `search_code_tool`: the first parsed entry of
`element_types` (if any) is handed to `semantic_search` as its
`file_type_filter`. -/
def search_code_tool (tool : VectorSearchTool) (query : PyStr)
    (max_results : Nat) (element_types : PyStr) : PyStr :=
  let types_list :=
    if element_types.isEmpty then [] else parse_types_list element_types
  tool.semantic_search query max_results types_list.head?

/-- ChromaDB equality where-filter semantics on one metadata dictionary:
the row matches when the named field is present with exactly the given
value. -/
def whereMatches (key : PyStr) (v : MetaVal)
    (md : List (PyStr × MetaVal)) : Bool :=
  match metaGet md key with
  | some w => w == v
  | none => false

/-- Exact source text spanning 1-based inclusive lines `s..e` of a file
given by its line list (what the spec calls the text of that span). -/
def spanText (lines : List PyStr) (s e : Nat) : PyStr :=
  pyJoin '\n' (pySlice lines (s - 1) e)

/-- Spec-side heading-delimited decomposition of a markdown file:
each region is `(name, start_line, end_line, body lines)` where the body
spans the line after the heading up to the line before the next heading
(or end of file), and the text before the first heading forms a region
with the default name. `i` is the number of lines already consumed. -/
def mdRegionsGo : List PyStr → Nat → PyStr → Nat → List PyStr →
    List (PyStr × Nat × Nat × List PyStr)
  | [], i, nm, s, body => [(nm, s, i, body)]
  | line :: rest, i, nm, s, body =>
    if isHeading line then
      (nm, s, i, body) :: mdRegionsGo rest (i + 1) (headingName line) (i + 2) []
    else
      mdRegionsGo rest (i + 1) nm s (body ++ [line])

/-- All heading-delimited regions of a line list. -/
def mdRegions (lines : List PyStr) : List (PyStr × Nat × Nat × List PyStr) :=
  mdRegionsGo lines 0 ("Introduction".toList) 1 []

/-- The element a region gives rise to: one `markdown_section` per region
with at least one non-blank body line; all-blank regions yield none. -/
def mdRegionElement (fp : PyStr) :
    PyStr × Nat × Nat × List PyStr → Option CodeElement
  | (nm, s, e, body) =>
    if sectionNonBlank body then
      some { name := nm, element_type := "markdown_section".toList,
             file_path := fp, start_line := s, end_line := e,
             content := pyStrip (pyJoin '\n' body), docstring := [] }
    else none

/-- The contiguous non-overlapping 50-line windows of a line list (with a
structural iteration bound, one window per iteration). -/
def chunkWindowsGo : Nat → List PyStr → List (List PyStr)
  | _, [] => []
  | 0, _ :: _ => []
  | fuel + 1, l :: ls => (l :: ls).take 50 :: chunkWindowsGo fuel ((l :: ls).drop 50)

/-- The contiguous non-overlapping 50-line windows of a line list. -/
def chunkWindows (ls : List PyStr) : List (List PyStr) :=
  chunkWindowsGo ls.length ls

/-- The element the chunk parser gives the window with 0-based index `j`:
one `text_chunk` per non-blank window, named by the window index. -/
def chunkSpecElement (fp : PyStr) (total j : Nat) (w : List PyStr) :
    Option CodeElement :=
  if !(pyStrip (pyJoin '\n' w)).isEmpty then
    some { name := "chunk_".toList ++ pyShowNat j,
           element_type := "text_chunk".toList, file_path := fp,
           start_line := 50 * j + 1, end_line := min (50 * j + 50) total,
           content := pyJoin '\n' w, docstring := [] }
  else none

lemma sectionNonBlank_nil : sectionNonBlank [] = false := rfl

lemma sectionNonBlank_ne_nil {sec : List PyStr}
    (h : sectionNonBlank sec = true) : sec ≠ [] := by
  intro he; rw [he] at h; exact Bool.false_ne_true h

lemma mdFlush_eq (fp : PyStr) (st : MdState) (i : Nat) :
    mdFlush fp st i =
      (mdRegionElement fp
        (st.current_heading, st.current_section_start, i,
          st.current_section)).toList := by
  unfold mdFlush mdRegionElement
  cases h : st.current_section with
  | nil => simp [sectionNonBlank]
  | cons a l =>
      simp only [List.isEmpty_cons, Bool.not_false, Bool.true_and]
      split <;> simp_all

lemma parse_markdown_go_spec (fp : PyStr) (rest : List PyStr) :
    ∀ (i : Nat) (st : MdState),
      (parse_markdown_go fp rest i st).elements ++
        mdFlush fp (parse_markdown_go fp rest i st) (i + rest.length) =
      st.elements ++
        (mdRegionsGo rest i st.current_heading st.current_section_start
          st.current_section).filterMap (mdRegionElement fp) := by
  induction rest with
  | nil =>
      intro i st
      simp only [parse_markdown_go, mdRegionsGo, List.length_nil, Nat.add_zero,
        List.filterMap_cons, List.filterMap_nil, mdFlush_eq]
      cases mdRegionElement fp
        (st.current_heading, st.current_section_start, i, st.current_section) <;>
        simp
  | cons line rest ih =>
      intro i st
      by_cases h : isHeading line
      · simp only [parse_markdown_go, if_pos h, mdRegionsGo, List.length_cons]
        have harith : i + (rest.length + 1) = (i + 1) + rest.length := by omega
        rw [harith, ih]
        simp only [List.filterMap_cons, mdFlush_eq]
        cases mdRegionElement fp
          (st.current_heading, st.current_section_start, i,
            st.current_section) <;> simp
      · simp only [parse_markdown_go, if_neg h, mdRegionsGo, List.length_cons]
        have harith : i + (rest.length + 1) = (i + 1) + rest.length := by omega
        rw [harith, ih]

/-- The markdown parser emits exactly the spec-described region elements:
one per heading-delimited region with a non-blank body, in order. -/
lemma parse_markdown_eq_spec (fp content : PyStr) :
    parse_markdown fp content =
      (mdRegions (pySplit '\n' content)).filterMap (mdRegionElement fp) := by
  unfold parse_markdown mdRegions
  have h := parse_markdown_go_spec fp (pySplit '\n' content) 0
    { elements := [], current_section := [], current_section_start := 1,
      current_heading := "Introduction".toList }
  simpa using h

lemma pySlice_append_exact {α : Type} (a b : List α) (s : Nat)
    (h : s ≤ a.length) : pySlice (a ++ b) s a.length = a.drop s := by
  unfold pySlice
  rw [List.drop_append_of_le_length h,
    List.take_append_of_le_length (by simp [List.length_drop]),
    List.take_of_length_le (by simp [List.length_drop])]

lemma mdRegionsGo_wf (lines : List PyStr) :
    ∀ (rest done : List PyStr) (nm : PyStr) (s0 : Nat) (body : List PyStr),
      lines = done ++ rest → s0 - 1 ≤ done.length → 1 ≤ s0 →
      body = done.drop (s0 - 1) →
      ∀ nm2 s e b,
        (nm2, s, e, b) ∈ mdRegionsGo rest done.length nm s0 body →
        1 ≤ s ∧ e = s - 1 + b.length ∧ b = pySlice lines (s - 1) e ∧
          e ≤ lines.length := by
  intro rest
  induction rest with
  | nil =>
      intro done nm s0 body hl hle h1 hbody nm2 s e b hmem
      rw [List.append_nil] at hl
      simp only [mdRegionsGo, List.mem_singleton, Prod.mk.injEq] at hmem
      obtain ⟨-, hs, he, hb⟩ := hmem
      have hlen : body.length = done.length - (s0 - 1) := by
        rw [hbody]; exact List.length_drop _ _
      rw [hs, he, hb]
      refine ⟨h1, by omega, ?_, by rw [hl]⟩
      rw [hbody, hl]
      simpa using (pySlice_append_exact done [] (s0 - 1) hle).symm
  | cons line rest ih =>
      intro done nm s0 body hl hle h1 hbody nm2 s e b hmem
      simp only [mdRegionsGo] at hmem
      by_cases h : isHeading line
      · rw [if_pos h] at hmem
        rcases List.mem_cons.mp hmem with heq | hmem2
        · simp only [Prod.mk.injEq] at heq
          obtain ⟨-, hs, he, hb⟩ := heq
          have hlen : body.length = done.length - (s0 - 1) := by
            rw [hbody]; exact List.length_drop _ _
          rw [hs, he, hb]
          refine ⟨h1, by omega, ?_, by rw [hl]; simp⟩
          rw [hbody, hl]
          exact (pySlice_append_exact done (line :: rest) (s0 - 1) hle).symm
        · have hdone : (done ++ [line]).length = done.length + 1 := by simp
          exact ih (done ++ [line]) (headingName line) (done.length + 2) []
            (by rw [hl]; simp) (by simp) (by omega)
            (by rw [eq_comm, List.drop_eq_nil_iff]; simp)
            nm2 s e b (by rw [hdone]; exact hmem2)
      · rw [if_neg h] at hmem
        have hdone : (done ++ [line]).length = done.length + 1 := by simp
        exact ih (done ++ [line]) nm s0 (body ++ [line])
          (by rw [hl]; simp) (by simp; omega) h1
          (by rw [hbody, List.drop_append_of_le_length hle])
          nm2 s e b (by rw [hdone]; exact hmem)

/-- Every region of a markdown line list has a 1-based start, an end
determined by start and body length, its body equal to the exact line span
`start..end`, and an end within the file. -/
lemma mdRegions_wf (lines : List PyStr) (nm : PyStr) (s e : Nat)
    (b : List PyStr) (hmem : (nm, s, e, b) ∈ mdRegions lines) :
    1 ≤ s ∧ e = s - 1 + b.length ∧ b = pySlice lines (s - 1) e ∧
      e ≤ lines.length := by
  have := mdRegionsGo_wf lines lines [] ("Introduction".toList) 1 []
    (by simp) (by simp) (by omega) (by simp) nm s e b
  exact this (by simpa [mdRegions] using hmem)

/-- Field facts for every element the markdown parser emits. -/
lemma parse_markdown_mem (fp content : PyStr) (e : CodeElement)
    (h : e ∈ parse_markdown fp content) :
    e.element_type = "markdown_section".toList ∧ e.file_path = fp ∧
      1 ≤ e.start_line ∧ e.start_line ≤ e.end_line ∧
      e.content =
        pyStrip (spanText (pySplit '\n' content) e.start_line e.end_line) ∧
      e.docstring = [] := by
  rw [parse_markdown_eq_spec] at h
  obtain ⟨⟨nm, s, en, b⟩, hmem, hval⟩ := List.mem_filterMap.mp h
  obtain ⟨h1, hlen, hslice, hle⟩ := mdRegions_wf _ nm s en b hmem
  by_cases hb : sectionNonBlank b
  · simp only [mdRegionElement, hb, if_true] at hval
    injection hval with hval2
    subst hval2
    have hne : b ≠ [] := sectionNonBlank_ne_nil hb
    have hblen : 1 ≤ b.length := by
      cases b with
      | nil => exact absurd rfl hne
      | cons x t => simp
    refine ⟨rfl, rfl, h1, by show s ≤ en; omega, ?_, rfl⟩
    show pyStrip (pyJoin '\n' b) =
      pyStrip (spanText (pySplit '\n' content) s en)
    simp only [spanText]
    rw [← hslice]
  · simp [mdRegionElement, hb] at hval

lemma chunkElement_eq (fp : PyStr) (total j : Nat) (w : List PyStr) :
    chunkElement fp total (50 * j) w = (chunkSpecElement fp total j w).toList := by
  unfold chunkElement chunkSpecElement
  rw [Nat.mul_div_cancel_left j (by norm_num : (0:Nat) < 50)]
  split <;> simp_all [List.isEmpty_iff]

lemma simple_text_chunks_go_spec_aux (fp : PyStr) (total : Nat) :
    ∀ (fuel : Nat) (ls : List PyStr) (j : Nat),
      simple_text_chunks_go fp total fuel ls (50 * j) =
        (List.enumFrom j (chunkWindowsGo fuel ls)).filterMap
          (fun p => chunkSpecElement fp total p.1 p.2) := by
  intro fuel
  induction fuel with
  | zero =>
      intro ls j
      cases ls <;> simp [simple_text_chunks_go, chunkWindowsGo]
  | succ n ih =>
      intro ls j
      cases ls with
      | nil => simp [simple_text_chunks_go, chunkWindowsGo]
      | cons l t =>
          simp only [simple_text_chunks_go, chunkWindowsGo,
            List.enumFrom_cons, List.filterMap_cons]
          have harith : 50 * j + 50 = 50 * (j + 1) := by ring
          rw [harith, ih ((l :: t).drop 50) (j + 1), chunkElement_eq]
          cases chunkSpecElement fp total j ((l :: t).take 50) <;> simp

/-- The chunk parser emits exactly the spec-described window elements: one
per non-blank 50-line window, indexed by window position. -/
lemma simple_text_chunks_eq_spec (fp content : PyStr) :
    simple_text_chunks fp content =
      ((chunkWindows (pySplit '\n' content)).enum).filterMap
        (fun p => chunkSpecElement fp (pySplit '\n' content).length p.1 p.2) := by
  unfold simple_text_chunks chunkWindows
  have h := simple_text_chunks_go_spec_aux fp (pySplit '\n' content).length
    (pySplit '\n' content).length (pySplit '\n' content) 0
  simpa [List.enum] using h

/-- The 50-line windows concatenate back to the whole line list:
no gaps, no overlap. -/
lemma chunkWindowsGo_flatten :
    ∀ (fuel : Nat) (ls : List PyStr), ls.length ≤ fuel →
      (chunkWindowsGo fuel ls).flatten = ls := by
  intro fuel
  induction fuel with
  | zero =>
      intro ls hlen
      have : ls = [] := List.eq_nil_of_length_eq_zero (by omega)
      subst this; simp [chunkWindowsGo]
  | succ n ih =>
      intro ls hlen
      cases ls with
      | nil => simp [chunkWindowsGo]
      | cons l t =>
          have hdrop : ((l :: t).drop 50).length ≤ n := by
            simp only [List.length_drop, List.length_cons]
            simp only [List.length_cons] at hlen
            omega
          simp only [chunkWindowsGo, List.flatten_cons]
          rw [ih ((l :: t).drop 50) hdrop]
          exact List.take_append_drop 50 (l :: t)

lemma chunkWindows_flatten (ls : List PyStr) :
    (chunkWindows ls).flatten = ls :=
  chunkWindowsGo_flatten ls.length ls le_rfl

/-- Every 50-line window is nonempty. -/
lemma chunkWindowsGo_ne_nil :
    ∀ (fuel : Nat) (ls : List PyStr), ∀ w ∈ chunkWindowsGo fuel ls, w ≠ [] := by
  intro fuel
  induction fuel with
  | zero => intro ls w hw; cases ls <;> simp [chunkWindowsGo] at hw
  | succ n ih =>
      intro ls w hw
      cases ls with
      | nil => simp [chunkWindowsGo] at hw
      | cons l t =>
          simp only [chunkWindowsGo] at hw
          rcases List.mem_cons.mp hw with rfl | hw2
          · simp
          · exact ih ((l :: t).drop 50) w hw2

lemma chunkWindows_ne_nil (ls : List PyStr) :
    ∀ w ∈ chunkWindows ls, w ≠ [] :=
  chunkWindowsGo_ne_nil ls.length ls

lemma pyJoin_singleton (sep : Char) (a : PyStr) : pyJoin sep [a] = a := by
  simp [pyJoin, List.intercalate, List.intersperse_singleton]

lemma pyJoin_cons_cons (sep : Char) (a b : PyStr) (l : List PyStr) :
    pyJoin sep (a :: b :: l) = a ++ sep :: pyJoin sep (b :: l) := by
  simp [pyJoin, List.intercalate, List.intersperse_cons_cons]

lemma pyJoin_append (sep : Char) (xs ys : List PyStr) (hx : xs ≠ [])
    (hy : ys ≠ []) :
    pyJoin sep (xs ++ ys) = pyJoin sep xs ++ sep :: pyJoin sep ys := by
  induction xs with
  | nil => exact absurd rfl hx
  | cons x xs ih =>
      cases xs with
      | nil =>
          cases ys with
          | nil => exact absurd rfl hy
          | cons y ys2 =>
              rw [List.singleton_append, pyJoin_cons_cons, pyJoin_singleton]
      | cons x2 xs2 =>
          have h := ih (by simp)
          rw [List.cons_append] at h
          rw [List.cons_append, List.cons_append, pyJoin_cons_cons,
            pyJoin_cons_cons, h]
          simp

/-- Joining the per-window joins with the separator rebuilds the join of
the concatenation, provided no window is empty. -/
lemma pyJoin_windows (sep : Char) :
    ∀ (gs : List (List PyStr)), (∀ g ∈ gs, g ≠ []) →
      pyJoin sep (gs.map (pyJoin sep)) = pyJoin sep gs.flatten := by
  intro gs
  induction gs with
  | nil => intro h; rfl
  | cons g gs ih =>
      intro hne
      cases gs with
      | nil => simp [pyJoin_singleton]
      | cons g2 gs2 =>
          have hflat : (g2 :: gs2).flatten ≠ [] := by
            have hg2 : g2 ≠ [] := hne g2 (by simp)
            cases g2 with
            | nil => exact absurd rfl hg2
            | cons a b => simp
          have hg : g ≠ [] := hne g (by simp)
          rw [List.flatten_cons, pyJoin_append sep g (g2 :: gs2).flatten hg hflat]
          rw [← ih (fun x hx => hne x (by simp [hx]))]
          rw [List.map_cons, List.map_cons, pyJoin_cons_cons]

/-- Joining the split lines back with the newline separator is the original
text (Python split/join round trip). -/
lemma pyJoin_pySplit (content : PyStr) :
    pyJoin '\n' (pySplit '\n' content) = content := by
  unfold pyJoin pySplit
  exact List.intercalate_splitOn content '\n'

lemma simple_text_chunks_go_mem (fp : PyStr) (lines : List PyStr) :
    ∀ (fuel i : Nat),
      ∀ e, e ∈ simple_text_chunks_go fp lines.length fuel (lines.drop i) i →
        e.element_type = "text_chunk".toList ∧ e.file_path = fp ∧
          1 ≤ e.start_line ∧ e.start_line ≤ e.end_line ∧
          e.content = spanText lines e.start_line e.end_line ∧
          e.docstring = [] := by
  intro fuel
  induction fuel with
  | zero =>
      intro i e he
      cases hd : lines.drop i <;> rw [hd] at he <;>
        simp [simple_text_chunks_go] at he
  | succ n ih =>
      intro i e he
      cases hd : lines.drop i with
      | nil =>
          rw [hd] at he
          simp [simple_text_chunks_go] at he
      | cons l t =>
          rw [hd] at he
          simp only [simple_text_chunks_go] at he
          rcases List.mem_append.mp he with h1 | h2
          · unfold chunkElement at h1
            split at h1
            · rw [List.mem_singleton] at h1
              subst h1
              have hlt : i < lines.length := by
                by_contra hge
                push_neg at hge
                rw [List.drop_eq_nil_iff.mpr hge] at hd
                exact absurd hd (by simp)
              refine ⟨rfl, rfl, by show 1 ≤ i + 1; omega, ?_, ?_, rfl⟩
              · show i + 1 ≤ min (i + 50) lines.length
                omega
              · show pyJoin '\n' ((l :: t).take 50) =
                  spanText lines (i + 1) (min (i + 50) lines.length)
                unfold spanText pySlice
                rw [show i + 1 - 1 = i from rfl, ← hd]
                congr 1
                rw [List.take_eq_take]
                have hlen2 : (lines.drop i).length = lines.length - i :=
                  List.length_drop _ _
                omega
            · simp at h1
          · have hdd : (l :: t).drop 50 = lines.drop (i + 50) := by
              rw [← hd, List.drop_drop]
            rw [hdd] at h2
            exact ih (i + 50) e h2

/-- Field facts for every element the chunk parser emits. -/
lemma simple_text_chunks_mem (fp content : PyStr) (e : CodeElement)
    (h : e ∈ simple_text_chunks fp content) :
    e.element_type = "text_chunk".toList ∧ e.file_path = fp ∧
      1 ≤ e.start_line ∧ e.start_line ≤ e.end_line ∧
      e.content = spanText (pySplit '\n' content) e.start_line e.end_line ∧
      e.docstring = [] := by
  have := simple_text_chunks_go_mem fp (pySplit '\n' content)
    (pySplit '\n' content).length 0 e
  exact this (by simpa [simple_text_chunks] using h)

/-- Field facts for every Python element extraction. -/
lemma extract_python_element_mem (lines : List PyStr) (fp : PyStr)
    (node : TSNode) (e : CodeElement)
    (h : extract_python_element lines fp node = some e) :
    e.file_path = fp ∧ e.start_line = node.start_row + 1 ∧
      e.end_line = node.end_row + 1 ∧
      e.content = spanText lines e.start_line e.end_line := by
  unfold extract_python_element at h
  split_ifs at h with h1 h2 h3
  · injection h with h4; subst h4; exact ⟨rfl, rfl, rfl, rfl⟩
  · injection h with h4; subst h4; exact ⟨rfl, rfl, rfl, rfl⟩
  · injection h with h4; subst h4; exact ⟨rfl, rfl, rfl, rfl⟩

/-- Field facts for every js/ts element extraction. -/
lemma extract_js_ts_element_mem (lines : List PyStr) (fp : PyStr)
    (node : JSNode) (e : CodeElement)
    (h : extract_js_ts_element lines fp node = some e) :
    e.file_path = fp ∧ e.start_line = node.start_row + 1 ∧
      e.end_line = node.end_row + 1 ∧
      e.content = spanText lines e.start_line e.end_line := by
  unfold extract_js_ts_element at h
  by_cases h1 : node.node_type = "function_declaration".toList
  · rw [if_pos h1] at h
    cases hn : node.name_node with
    | none => rw [hn] at h; exact absurd h (by simp)
    | some v =>
        obtain ⟨r, a, b⟩ := v
        rw [hn] at h
        injection h with h4; subst h4; exact ⟨rfl, rfl, rfl, rfl⟩
  · rw [if_neg h1] at h
    by_cases h2 : node.node_type = "class_declaration".toList
    · rw [if_pos h2] at h
      cases hn : node.name_node with
      | none => rw [hn] at h; exact absurd h (by simp)
      | some v =>
          obtain ⟨r, a, b⟩ := v
          rw [hn] at h
          injection h with h4; subst h4; exact ⟨rfl, rfl, rfl, rfl⟩
    · rw [if_neg h2] at h
      by_cases h3 : node.node_type = "import_statement".toList
      · rw [if_pos h3] at h
        injection h with h4; subst h4; exact ⟨rfl, rfl, rfl, rfl⟩
      · rw [if_neg h3] at h
        exact absurd h (by simp)

lemma find?_append_first {α : Type} (l₁ l₂ : List α) (q : α → Bool) :
    (l₁ ++ l₂).find? q =
      match l₁.find? q with
      | some a => some a
      | none => l₂.find? q := by
  induction l₁ with
  | nil => simp
  | cons a l ih =>
      rw [List.cons_append, List.find?_cons, List.find?_cons]
      cases q a <;> simp [ih]

lemma upsertMany_apply (ws : List (PyStr × StoreEntry)) :
    ∀ (st : Store) (k : PyStr),
      Store.upsertMany st ws k =
        match ws.reverse.find? (fun p => decide (p.1 = k)) with
        | some p => some p.2
        | none => st k := by
  induction ws with
  | nil => intro st k; rfl
  | cons p ws ih =>
      intro st k
      rw [show Store.upsertMany st (p :: ws) =
        Store.upsertMany (Store.upsert1 st p.1 p.2) ws from rfl]
      rw [ih, List.reverse_cons, find?_append_first]
      cases hf : ws.reverse.find? (fun p => decide (p.1 = k)) with
      | some q => rfl
      | none =>
          show Store.upsert1 st p.1 p.2 k = _
          unfold Store.upsert1
          by_cases hk : p.1 = k
          · simp [hk]
          · rw [if_neg (fun hh => hk hh.symm)]
            simp [hk]

/-- Applying one batch of upserts twice leaves the collection exactly as
after the first application: the upsert contract makes re-writing the same
ids with the same payloads a no-op. -/
lemma upsertMany_idem (st : Store) (ws : List (PyStr × StoreEntry)) :
    Store.upsertMany (Store.upsertMany st ws) ws = Store.upsertMany st ws := by
  funext k
  rw [upsertMany_apply ws (Store.upsertMany st ws) k, upsertMany_apply ws st k]
  cases hf : ws.reverse.find? (fun p => decide (p.1 = k)) with
  | some q => simp [hf]
  | none => simp [hf, upsertMany_apply ws st k]

lemma upsertMany_append (st : Store) (w1 w2 : List (PyStr × StoreEntry)) :
    Store.upsertMany st (w1 ++ w2) =
      Store.upsertMany (Store.upsertMany st w1) w2 := by
  unfold Store.upsertMany
  exact List.foldl_append _ _ _ _

/-- Whether `open(...).read()` succeeded for a file. -/
def readOK (f : SrcFile) : Bool :=
  match f.readResult with
  | .ok _ => true
  | .error _ => false

/-- The elements one readable file contributes to the run. -/
def fileElements (c : ExternalCtx) (root : PyStr) (f : SrcFile) :
    List CodeElement :=
  match f.readResult with
  | .ok content => parse_file c (SrcFile.fullPath root f) f.ext content
  | .error _ => []

/-- The summary upsert one readable file performs. -/
def fileSummaryWrite (c : ExternalCtx) (root : PyStr) (f : SrcFile) :
    List (PyStr × StoreEntry) :=
  match f.readResult with
  | .ok content =>
      [summaryWrite c (create_file_summary f.relPath f.ext content
        (SrcFile.fullPath root f)
        (parse_file c (SrcFile.fullPath root f) f.ext content))]
  | .error _ => []

/-- All elements of one run, in file order. -/
def runElements (c : ExternalCtx) (root : PyStr) (fs : List SrcFile) :
    List CodeElement :=
  (fs.map (fileElements c root)).flatten

/-- All summary writes of one run, in file order. -/
def runSummaryWrites (c : ExternalCtx) (root : PyStr) (fs : List SrcFile) :
    List (PyStr × StoreEntry) :=
  (fs.map (fileSummaryWrite c root)).flatten

/-- Success shape of the index loop: when every read succeeds, the run
writes the file summaries one by one, batches all elements at the end, and
reports the relative paths, the element count and an empty error list. -/
lemma index_codebase_go_ok (c : ExternalCtx) (root : PyStr) :
    ∀ (fs : List SrcFile) (st : IndexState) (files : List PyStr)
      (elems : List CodeElement),
      (∀ f ∈ fs, readOK f = true) →
      index_codebase_go c root fs st files elems =
        .ok
          { code_store :=
              store_elements c (elems ++ runElements c root fs) st.code_store,
            file_store :=
              st.file_store.upsertMany (runSummaryWrites c root fs) }
          { indexed_files := files ++ fs.map (fun f => f.relPath),
            total_elements := (elems ++ runElements c root fs).length,
            errors := [] } := by
  intro fs
  induction fs with
  | nil =>
      intro st files elems hread
      simp [index_codebase_go, runElements, runSummaryWrites, Store.upsertMany]
  | cons f fs ih =>
      intro st files elems hread
      have hf : readOK f = true := hread f (by simp)
      unfold readOK at hf
      cases hr : f.readResult with
      | error msg => rw [hr] at hf; exact absurd hf (by simp)
      | ok content =>
          simp only [index_codebase_go, hr]
          rw [ih _ _ _ (fun g hg => hread g (by simp [hg]))]
          have hfe : fileElements c root f =
              parse_file c (SrcFile.fullPath root f) f.ext content := by
            unfold fileElements; rw [hr]
          have hfw : fileSummaryWrite c root f =
              [summaryWrite c (create_file_summary f.relPath f.ext content
                (SrcFile.fullPath root f)
                (parse_file c (SrcFile.fullPath root f) f.ext content))] := by
            unfold fileSummaryWrite; rw [hr]
          unfold runElements runSummaryWrites
          rw [List.map_cons, List.map_cons, List.flatten_cons,
            List.flatten_cons, hfe, hfw]
          unfold store_file_summary
          rw [upsertMany_append]
          simp [List.append_assoc, Store.upsertMany]

/-- An `ok` outcome of the index loop means every file read succeeded. -/
lemma index_codebase_go_reads (c : ExternalCtx) (root : PyStr) :
    ∀ (fs : List SrcFile) (st : IndexState) (files : List PyStr)
      (elems : List CodeElement) (st2 : IndexState) (r : RunReport),
      index_codebase_go c root fs st files elems = .ok st2 r →
      ∀ f ∈ fs, readOK f = true := by
  intro fs
  induction fs with
  | nil => intro st files elems st2 r h f hf; simp at hf
  | cons f fs ih =>
      intro st files elems st2 r h g hg
      rw [index_codebase_go] at h
      cases hr : f.readResult with
      | error msg => rw [hr] at h; exact absurd h (by simp)
      | ok content =>
          rw [hr] at h
          rcases List.mem_cons.mp hg with rfl | hg2
          · unfold readOK; rw [hr]
          · exact ih _ _ _ _ _ h g hg2

/-- An `ok` outcome always carries an empty error list. -/
lemma index_codebase_go_errors (c : ExternalCtx) (root : PyStr) :
    ∀ (fs : List SrcFile) (st : IndexState) (files : List PyStr)
      (elems : List CodeElement) (st2 : IndexState) (r : RunReport),
      index_codebase_go c root fs st files elems = .ok st2 r →
      r.errors = [] := by
  intro fs
  induction fs with
  | nil =>
      intro st files elems st2 r h
      rw [index_codebase_go] at h
      injection h with h1 h2
      rw [← h2]
  | cons f fs ih =>
      intro st files elems st2 r h
      rw [index_codebase_go] at h
      cases hr : f.readResult with
      | error msg => rw [hr] at h; exact absurd h (by simp)
      | ok content =>
          rw [hr] at h
          exact ih _ _ _ _ _ h

lemma store_elements_idem (c : ExternalCtx) (els : List CodeElement)
    (st : Store) :
    store_elements c els (store_elements c els st) = store_elements c els st := by
  unfold store_elements
  by_cases h : els.isEmpty <;> simp [h, upsertMany_idem]

/-- A trivial external context used for concrete runs: the tree-sitter node
lists and the embedding vectors play no role in the properties evaluated on
these inputs. -/
def ctx0 : ExternalCtx :=
  { tsNodesPy := fun _ => [], tsNodesJs := fun _ => [], embed := fun _ => [] }

/-- Both collections empty, as created on first use. -/
def emptyIndexState : IndexState :=
  { code_store := Store.empty, file_store := Store.empty }

/-- A readable markdown file. -/
def fGood : SrcFile :=
  { relPath := "a.md".toList, ext := ".md".toList,
    readResult := .ok "# T\nbody".toList }

/-- A file whose `open(...).read()` raises `OSError`. -/
def fBad : SrcFile :=
  { relPath := "b.md".toList, ext := ".md".toList,
    readResult := .error "OSError".toList }

/-- Claim C1 (code_bug evidence). `index_codebase` has no try/except around
the per-file work, so a read failure propagates and aborts the whole run:
with a readable file followed by an unreadable one the call raises instead
of recording the failure, and the `errors` list of any report an `ok` run
returns is always `[]` because nothing is ever appended to it. -/
theorem index_read_failure_aborts :
    (∃ st, index_codebase ctx0 "proj".toList [fGood, fBad] emptyIndexState =
      .raised st) ∧
    (∀ (c : ExternalCtx) (root : PyStr) (files : List SrcFile)
        (st0 st1 : IndexState) (r : RunReport),
        index_codebase c root files st0 = .ok st1 r → r.errors = []) := by
  constructor
  · exact ⟨_, rfl⟩
  · intro c root files st0 st1 r h
    exact index_codebase_go_errors c root files st0 [] [] st1 r h

/-- Witness: a successful concrete run returns a report whose errors list
is empty. -/
theorem index_read_failure_aborts_witness :
    ∃ st1 r, index_codebase ctx0 "proj".toList [fGood] emptyIndexState =
      .ok st1 r ∧ r.errors = [] := by
  refine ⟨_, _, rfl, ?_⟩
  exact index_read_failure_aborts.2 ctx0 "proj".toList [fGood]
    emptyIndexState _ _ rfl

/-- Claim C2. Indexing is idempotent: when a run over fixed files from
state `st0` succeeds with final state `st1` and report `r1`, the identical
second run from `st1` succeeds with exactly the same state (same ids, same
vectors, same metadata in both collections: `Store` is the id-indexed map)
and an identical report, so `total_elements` is unchanged. -/
theorem index_codebase_idempotent (c : ExternalCtx) (root : PyStr)
    (files : List SrcFile) (st0 st1 : IndexState) (r1 : RunReport)
    (h : index_codebase c root files st0 = .ok st1 r1) :
    index_codebase c root files st1 = .ok st1 r1 := by
  have hreads := index_codebase_go_reads c root files st0 [] [] st1 r1 h
  have h1 := index_codebase_go_ok c root files st0 [] [] hreads
  have h2 := index_codebase_go_ok c root files st1 [] [] hreads
  rw [index_codebase] at h
  rw [h1] at h
  injection h with hst hr
  subst hst; subst hr
  rw [index_codebase, h2]
  congr 1
  show IndexState.mk _ _ = IndexState.mk _ _
  congr 1
  · exact store_elements_idem c _ _
  · exact upsertMany_idem _ _

/-- Witness for C2: a concrete one-file project indexed twice. -/
theorem index_codebase_idempotent_witness :
    ∃ st1 r1, index_codebase ctx0 "proj".toList [fGood] emptyIndexState =
        .ok st1 r1 ∧
      index_codebase ctx0 "proj".toList [fGood] st1 = .ok st1 r1 := by
  refine ⟨_, _, rfl, ?_⟩
  exact index_codebase_idempotent ctx0 "proj".toList [fGood]
    emptyIndexState _ _ rfl

/-- Claim C7. Before any indexing run has created the collections, the
constructor finds neither collection (the lookup raises and the except arm
leaves both handles `None`), and every search operation returns its
textual not-indexed sentinel; the operations are total functions of the
model, so no exception reaches the caller. -/
theorem not_indexed_sentinel (embedq : PyStr → List Int)
    (showSim : Rat → PyStr) (q fp et : PyStr) (k lim : Nat)
    (ft : Option PyStr) :
    (vst_init embedq showSim (none, none)).semantic_search q k ft =
        notIndexedCodeMsg ∧
    (vst_init embedq showSim (none, none)).find_files_by_content q k =
        notIndexedFileMsg ∧
    (vst_init embedq showSim (none, none)).find_elements_by_type et lim =
        notIndexedCodeMsg ∧
    (vst_init embedq showSim (none, none)).get_file_structure fp =
        notIndexedCodeMsg :=
  ⟨rfl, rfl, rfl, rfl⟩

/-- A trivial concrete search tool in the not-indexed state. -/
def tool0 : VectorSearchTool :=
  vst_init (fun _ => []) (fun _ => []) (none, none)

/-- Claim C10. `search_code_tool` does not apply `element_types` as an
element-type filter: of the parsed comma-separated entries only the first
is used, it is handed to `semantic_search` as its file-type argument, which
turns it into an equality where-filter on the `file_type` metadata field —
and no stored element metadata dictionary has a `file_type` key at all, so
such a filter matches no element. -/
theorem element_types_not_a_type_filter :
    (∀ (tool : VectorSearchTool) (q : PyStr) (k : Nat) (et t : PyStr)
        (ts : List PyStr),
        parse_types_list et = t :: ts → et ≠ [] →
        search_code_tool tool q k et = tool.semantic_search q k (some t)) ∧
    (∀ v : PyStr, where_filter_of (some v) =
        some ("file_type".toList, .s v)) ∧
    (∀ (e : CodeElement) (v : PyStr),
        whereMatches "file_type".toList (.s v) e.to_dict = false) := by
  refine ⟨?_, fun v => rfl, fun e v => rfl⟩
  intro tool q k et t ts hp hne
  unfold search_code_tool
  rw [if_neg (by simp [List.isEmpty_iff, hne]), hp]
  rfl

/-- Witness for C10 at a concrete `element_types` string. -/
theorem element_types_not_a_type_filter_witness :
    parse_types_list "function, class".toList =
        ["function".toList, "class".toList] ∧
      search_code_tool tool0 "q".toList 5 "function, class".toList =
        tool0.semantic_search "q".toList 5 (some "function".toList) ∧
      whereMatches "file_type".toList (.s "function".toList)
        (CodeElement.to_dict
          { name := "f".toList, element_type := "function".toList,
            file_path := "a.py".toList, start_line := 1, end_line := 2,
            content := "def f:".toList, docstring := [] }) = false := by
  refine ⟨by decide, ?_, ?_⟩
  · exact element_types_not_a_type_filter.1 tool0 "q".toList 5
      "function, class".toList "function".toList ["class".toList]
      (by decide) (by decide)
  · exact element_types_not_a_type_filter.2.2 _ _

/-- Claim C3 amended. During a run over `root`, the parser variants are
called with the discovered root-joined path, and every emitted element
stores exactly that full path in `file_path`; only the `FileSummary`
record stores the root-relative path. -/
theorem element_paths_full_and_summary_relative (c : ExternalCtx)
    (root : PyStr) (f : SrcFile) (content : PyStr) (els : List CodeElement) :
    (∀ e ∈ parse_file c (SrcFile.fullPath root f) f.ext content,
        e.file_path = SrcFile.fullPath root f) ∧
    (create_file_summary f.relPath f.ext content (SrcFile.fullPath root f)
        els).file_path = f.relPath := by
  constructor
  · intro e he
    unfold parse_file at he
    split_ifs at he with h1 h2 h3
    · obtain ⟨nd, hnd, hex⟩ := List.mem_filterMap.mp
        (by simpa [parse_with_tree_sitter_py] using he)
      exact (extract_python_element_mem _ _ _ _ hex).1
    · obtain ⟨nd, hnd, hex⟩ := List.mem_filterMap.mp
        (by simpa [parse_with_tree_sitter_js] using he)
      exact (extract_js_ts_element_mem _ _ _ _ hex).1
    · exact (parse_markdown_mem _ _ _ he).2.1
    · exact (simple_text_chunks_mem _ _ _ he).2.1
  · rfl

/-- The element the run over root `proj` emits for `a.md`. -/
def eT3 : CodeElement :=
  { name := "T".toList, element_type := "markdown_section".toList,
    file_path := "proj/a.md".toList, start_line := 2, end_line := 2,
    content := "body".toList, docstring := [] }

/-- Claim C3 counterexample (closed): for root `proj` and file `a.md`, the
emitted element stores `proj/a.md` — not the root-relative `a.md` — while
the file summary for the same file does store `a.md`. -/
theorem element_file_path_not_relative :
    (parse_file ctx0 (SrcFile.fullPath "proj".toList fGood) fGood.ext
        "# T\nbody".toList).map CodeElement.file_path =
      ["proj/a.md".toList] ∧
    ("proj/a.md".toList : PyStr) ≠ "a.md".toList ∧
    (create_file_summary fGood.relPath fGood.ext "# T\nbody".toList
        (SrcFile.fullPath "proj".toList fGood) []).file_path =
      "a.md".toList := by
  refine ⟨by decide, by decide, by decide⟩

/-- Witness for the amended C3 at a concrete file. -/
theorem element_paths_witness :
    eT3.file_path = SrcFile.fullPath "proj".toList fGood :=
  (element_paths_full_and_summary_relative ctx0 "proj".toList fGood
    "# T\nbody".toList []).1 eT3 (by decide)

lemma chunkSpec_contents (fp : PyStr) (total : Nat) :
    ∀ (ws : List (List PyStr)) (j : Nat),
      (∀ w ∈ ws, pyStrip (pyJoin '\n' w) ≠ []) →
      ((List.enumFrom j ws).filterMap
          (fun p => chunkSpecElement fp total p.1 p.2)).map
        (fun e => e.content) = ws.map (pyJoin '\n') := by
  intro ws
  induction ws with
  | nil => intro j h; rfl
  | cons w ws ih =>
      intro j hall
      rw [List.enumFrom_cons, List.filterMap_cons]
      have hw : (!(pyStrip (pyJoin '\n' w)).isEmpty) = true := by
        have := hall w (by simp)
        simpa [List.isEmpty_iff] using this
      have hws : ∃ el, chunkSpecElement fp total j w = some el ∧
          el.content = pyJoin '\n' w := by
        unfold chunkSpecElement
        rw [if_pos hw]
        exact ⟨_, rfl, rfl⟩
      obtain ⟨el, hel, hc⟩ := hws
      rw [hel]
      simp [hc, ih (j + 1) (fun x hx => hall x (by simp [hx]))]

lemma chunk_windows_join (content : PyStr) :
    pyJoin '\n'
      ((chunkWindows (pySplit '\n' content)).map (pyJoin '\n')) = content := by
  rw [pyJoin_windows '\n' _ (chunkWindows_ne_nil _), chunkWindows_flatten,
    pyJoin_pySplit]

/-- Claim C4 amended. The chunk parser partitions the file into contiguous
non-overlapping 50-line windows whose concatenation is exactly the line
list (no gaps, no overlap, shorter last window), joining all windows with
the newline separator rebuilds the file byte-for-byte, and one `text_chunk`
element named by the 0-based window index is emitted per NON-BLANK window;
consequently, when every window is non-blank, joining the emitted chunk
contents in ascending window order with newline separators reproduces the
file byte-for-byte (an all-blank window is dropped, so reconstruction from
emitted chunks alone fails in general — see the counterexample). -/
theorem chunk_fallback_partition :
    (∀ fp content, simple_text_chunks fp content =
        ((chunkWindows (pySplit '\n' content)).enum).filterMap
          (fun p => chunkSpecElement fp (pySplit '\n' content).length p.1 p.2)) ∧
    (∀ content : PyStr,
        (chunkWindows (pySplit '\n' content)).flatten = pySplit '\n' content) ∧
    (∀ content : PyStr, pyJoin '\n'
        ((chunkWindows (pySplit '\n' content)).map (pyJoin '\n')) = content) ∧
    (∀ fp content,
        (∀ w ∈ chunkWindows (pySplit '\n' content),
          pyStrip (pyJoin '\n' w) ≠ []) →
        pyJoin '\n' ((simple_text_chunks fp content).map
          (fun e => e.content)) = content) := by
  refine ⟨simple_text_chunks_eq_spec,
    fun content => chunkWindows_flatten _, chunk_windows_join, ?_⟩
  intro fp content hall
  rw [simple_text_chunks_eq_spec fp content]
  rw [show (chunkWindows (pySplit '\n' content)).enum =
      List.enumFrom 0 (chunkWindows (pySplit '\n' content)) from rfl]
  rw [chunkSpec_contents fp _ _ 0 hall]
  exact chunk_windows_join content

/-- A 51-line file whose first 50-line window is entirely blank. -/
def cBlank : PyStr := List.replicate 50 '\n' ++ ['x']

/-- Claim C4 counterexample (closed): the all-blank window 0 of `cBlank`
yields no element (only `chunk_1` is emitted), so concatenating the
emitted chunk contents — with or without newline separators — does not
reproduce the file. -/
theorem chunk_blank_window_dropped :
    (simple_text_chunks "f.txt".toList cBlank).map (fun e => e.name) =
      ["chunk_1".toList] ∧
    pyJoin '\n' ((simple_text_chunks "f.txt".toList cBlank).map
      (fun e => e.content)) ≠ cBlank ∧
    ((simple_text_chunks "f.txt".toList cBlank).map
      (fun e => e.content)).flatten ≠ cBlank := by
  refine ⟨by decide, by decide, by decide⟩

/-- Witness for the amended C4 at a concrete file with no blank window. -/
theorem chunk_fallback_partition_witness :
    pyJoin '\n' ((simple_text_chunks "f.txt".toList "ab\ncd".toList).map
      (fun e => e.content)) = "ab\ncd".toList :=
  chunk_fallback_partition.2.2.2 "f.txt".toList "ab\ncd".toList (by decide)

/-- The markdown scenario file of the claim. -/
def scenarioMd : PyStr := "# A\nb2\nb3\nb4\n# B\nb6\nb7\nb8".toList

/-- Scenario element `A` (lines 2-4). -/
def eA : CodeElement :=
  { name := "A".toList, element_type := "markdown_section".toList,
    file_path := "doc.md".toList, start_line := 2, end_line := 4,
    content := "b2\nb3\nb4".toList, docstring := [] }

/-- Scenario element `B` (lines 6-8). -/
def eB : CodeElement :=
  { name := "B".toList, element_type := "markdown_section".toList,
    file_path := "doc.md".toList, start_line := 6, end_line := 8,
    content := "b6\nb7\nb8".toList, docstring := [] }

/-- Claim C5 amended. The markdown parser emits exactly one
`markdown_section` element per heading-delimited region WITH a non-blank
body (regions whose body is empty or all-blank yield no element; the text
before the first heading forms a region with the default name), each named
`line.strip(marker).strip()` of its heading, spanning the line after the
heading to the line before the next heading or end of file; in particular
the claimed scenario yields exactly elements `A` (lines 2-4) and `B`
(lines 6-8). -/
theorem markdown_sections_spec :
    (∀ fp content, parse_markdown fp content =
        (mdRegions (pySplit '\n' content)).filterMap (mdRegionElement fp)) ∧
    (∀ (content nm : PyStr) (s e : Nat) (b : List PyStr),
        (nm, s, e, b) ∈ mdRegions (pySplit '\n' content) →
        1 ≤ s ∧ e = s - 1 + b.length ∧
          b = pySlice (pySplit '\n' content) (s - 1) e ∧
          e ≤ (pySplit '\n' content).length) ∧
    parse_markdown "doc.md".toList scenarioMd = [eA, eB] := by
  refine ⟨parse_markdown_eq_spec, ?_, by decide⟩
  intro content nm s e b hmem
  exact mdRegions_wf _ nm s e b hmem

/-- A markdown file with an all-blank region between two headings. -/
def mdTwoHeads : PyStr := "# A\n\n# B\nx".toList

/-- The single element emitted for `mdTwoHeads`. -/
def eB5 : CodeElement :=
  { name := "B".toList, element_type := "markdown_section".toList,
    file_path := "f.md".toList, start_line := 4, end_line := 4,
    content := "x".toList, docstring := [] }

/-- Claim C5 counterexample (closed): the region between headings `# A`
(line 1) and `# B` (line 3) exists (its body is blank line 2), yet the
parser emits no element for it — there is no element named `A` — so the
parser does not emit one element per region between consecutive
headings. -/
theorem markdown_blank_region_yields_no_element :
    mdRegions (pySplit '\n' mdTwoHeads) =
      [("Introduction".toList, 1, 0, []), ("A".toList, 2, 2, [[]]),
       ("B".toList, 4, 4, ["x".toList])] ∧
    parse_markdown "f.md".toList mdTwoHeads = [eB5] ∧
    ∀ e ∈ parse_markdown "f.md".toList mdTwoHeads, e.name ≠ "A".toList := by
  refine ⟨by decide, by decide, by decide⟩

/-- Witness for the amended C5 at a concrete region. -/
theorem markdown_sections_spec_witness :
    1 ≤ 2 ∧ 2 = 2 - 1 + ([[]] : List PyStr).length ∧
      ([[]] : List PyStr) = pySlice (pySplit '\n' mdTwoHeads) (2 - 1) 2 ∧
      2 ≤ (pySplit '\n' mdTwoHeads).length :=
  markdown_sections_spec.2.1 mdTwoHeads "A".toList 2 2 [[]] (by decide)

/-- Claim C6 amended. Grammar-parser and chunk-parser elements carry the
exact source text of lines `start_line..end_line`; markdown sections carry
that span text with surrounding whitespace stripped (`.strip()` is applied
to the joined section in `_parse_markdown`). -/
theorem element_content_span :
    (∀ (lines : List PyStr) (fp : PyStr) (node : TSNode) (e : CodeElement),
        extract_python_element lines fp node = some e →
        e.content = spanText lines e.start_line e.end_line) ∧
    (∀ (lines : List PyStr) (fp : PyStr) (node : JSNode) (e : CodeElement),
        extract_js_ts_element lines fp node = some e →
        e.content = spanText lines e.start_line e.end_line) ∧
    (∀ (fp content : PyStr) (e : CodeElement),
        e ∈ simple_text_chunks fp content →
        e.content = spanText (pySplit '\n' content) e.start_line e.end_line) ∧
    (∀ (fp content : PyStr) (e : CodeElement),
        e ∈ parse_markdown fp content →
        e.content =
          pyStrip (spanText (pySplit '\n' content) e.start_line e.end_line)) := by
  refine ⟨?_, ?_, ?_, ?_⟩
  · intro lines fp node e h
    exact (extract_python_element_mem lines fp node e h).2.2.2
  · intro lines fp node e h
    exact (extract_js_ts_element_mem lines fp node e h).2.2.2
  · intro fp content e h
    exact (simple_text_chunks_mem fp content e h).2.2.2.2.1
  · intro fp content e h
    exact (parse_markdown_mem fp content e h).2.2.2.2.1

/-- A markdown file with a blank line inside a section span. -/
def mdStrip : PyStr := "# T\nx\n\n# U\ny".toList

/-- The first element emitted for `mdStrip`. -/
def eT6 : CodeElement :=
  { name := "T".toList, element_type := "markdown_section".toList,
    file_path := "g.md".toList, start_line := 2, end_line := 3,
    content := "x".toList, docstring := [] }

/-- The second element emitted for `mdStrip`. -/
def eU6 : CodeElement :=
  { name := "U".toList, element_type := "markdown_section".toList,
    file_path := "g.md".toList, start_line := 5, end_line := 5,
    content := "y".toList, docstring := [] }

/-- Claim C6 counterexample (closed): section `T` spans lines 2-3 whose
exact text is `x` followed by a newline and a blank line, but the stored
content is the stripped `x`. -/
theorem markdown_content_stripped :
    parse_markdown "g.md".toList mdStrip = [eT6, eU6] ∧
    spanText (pySplit '\n' mdStrip) 2 3 = "x\n".toList ∧
    eT6.content ≠ spanText (pySplit '\n' mdStrip) 2 3 := by
  refine ⟨by decide, by decide, by decide⟩

/-- Witness for the amended C6 at a concrete markdown element. -/
theorem element_content_span_witness :
    eT6.content =
      pyStrip (spanText (pySplit '\n' mdStrip) eT6.start_line eT6.end_line) :=
  element_content_span.2.2.2 "g.md".toList mdStrip eT6 (by decide)

/-- Claim C9. Every element of the three parser variants has a 1-based
`start_line` and `end_line ≥ start_line`; for the grammar extractors this
uses the tree-sitter node invariant that a node end point is not before
its start point. -/
theorem parser_line_bounds :
    (∀ (fp content : PyStr) (e : CodeElement), e ∈ parse_markdown fp content →
        1 ≤ e.start_line ∧ e.start_line ≤ e.end_line) ∧
    (∀ (fp content : PyStr) (e : CodeElement),
        e ∈ simple_text_chunks fp content →
        1 ≤ e.start_line ∧ e.start_line ≤ e.end_line) ∧
    (∀ (lines : List PyStr) (fp : PyStr) (node : TSNode) (e : CodeElement),
        node.start_row ≤ node.end_row →
        extract_python_element lines fp node = some e →
        1 ≤ e.start_line ∧ e.start_line ≤ e.end_line) ∧
    (∀ (lines : List PyStr) (fp : PyStr) (node : JSNode) (e : CodeElement),
        node.start_row ≤ node.end_row →
        extract_js_ts_element lines fp node = some e →
        1 ≤ e.start_line ∧ e.start_line ≤ e.end_line) := by
  refine ⟨?_, ?_, ?_, ?_⟩
  · intro fp content e h
    obtain ⟨-, -, h1, h2, -, -⟩ := parse_markdown_mem fp content e h
    exact ⟨h1, h2⟩
  · intro fp content e h
    obtain ⟨-, -, h1, h2, -, -⟩ := simple_text_chunks_mem fp content e h
    exact ⟨h1, h2⟩
  · intro lines fp node e hrow h
    obtain ⟨-, hs, he2, -⟩ := extract_python_element_mem lines fp node e h
    rw [hs, he2]
    omega
  · intro lines fp node e hrow h
    obtain ⟨-, hs, he2, -⟩ := extract_js_ts_element_mem lines fp node e h
    rw [hs, he2]
    omega

/-- Witness for C9 at a concrete markdown element. -/
theorem parser_line_bounds_witness :
    1 ≤ eB5.start_line ∧ eB5.start_line ≤ eB5.end_line :=
  parser_line_bounds.1 "f.md".toList mdTwoHeads eB5 (by decide)

lemma format_code_rows_eq (showSim : Rat → PyStr) :
    ∀ (rows : List (Nat × (PyStr × (PyObj × Rat)))),
      format_code_rows showSim rows =
        rows.filterMap (fun p =>
          match p.2.2.1 with
          | PyObj.dict md => some (formatResultRow showSim p.1 md p.2.2.2)
          | PyObj.other _ => none) := by
  intro rows
  induction rows with
  | nil => rfl
  | cons p rows ih =>
      obtain ⟨i, d, m, dist⟩ := p
      cases m <;> simp [format_code_rows, ih]

/-- Claim C8. The result-shaping stage of `semantic_search` is total and
row-robust: (i) if the three extracted parallel lists disagree in length
the call returns the inconsistent-data message instead of indexing out of
range; (ii) if they agree, the output is the newline-join of the formatted
rows in which every row whose metadata is not a dictionary is skipped and
every other row is formatted (keeping its original result index); (iii) on
every store response whatsoever the call returns one of the sentinel
messages or a join of formatted rows — never a fault. -/
theorem semantic_search_row_robust :
    (∀ (showSim : Rat → PyStr) (q : PyStr) (r : QueryResult)
        (dl : List PyStr) (ml : List PyObj) (tl : List Rat),
        firstList r.documents = some dl →
        firstList r.metadatas = some ml →
        firstList r.distances = some tl →
        ¬(dl.length = ml.length ∧ ml.length = tl.length) →
        process_query_result showSim q r = inconsistentMsg q) ∧
    (∀ (showSim : Rat → PyStr) (q : PyStr) (r : QueryResult)
        (dl : List PyStr) (ml : List PyObj) (tl : List Rat),
        firstList r.documents = some dl →
        firstList r.metadatas = some ml →
        firstList r.distances = some tl →
        (dl.length = ml.length ∧ ml.length = tl.length) →
        process_query_result showSim q r =
          pyJoin '\n' (((dl.zip (ml.zip tl)).enum).filterMap
            (fun p => match p.2.2.1 with
              | PyObj.dict md => some (formatResultRow showSim p.1 md p.2.2.2)
              | PyObj.other _ => none))) ∧
    (∀ (showSim : Rat → PyStr) (q : PyStr) (r : QueryResult),
        process_query_result showSim q r = noResultsMsg q ∨
        process_query_result showSim q r = inconsistentMsg q ∨
        ∃ rows, process_query_result showSim q r =
          pyJoin '\n' (format_code_rows showSim rows)) := by
  refine ⟨?_, ?_, ?_⟩
  · intro showSim q r dl ml tl h1 h2 h3 hne
    simp only [process_query_result, h1, h2, h3]
    rw [if_neg hne]
  · intro showSim q r dl ml tl h1 h2 h3 hlen
    simp only [process_query_result, h1, h2, h3]
    rw [if_pos hlen, format_code_rows_eq]
  · intro showSim q r
    cases hd : firstList r.documents with
    | none => left; simp [process_query_result, hd]
    | some dl =>
        cases hm : firstList r.metadatas with
        | none => left; simp [process_query_result, hd, hm]
        | some ml =>
            cases ht : firstList r.distances with
            | none => left; simp [process_query_result, hd, hm, ht]
            | some tl =>
                by_cases hlen : dl.length = ml.length ∧ ml.length = tl.length
                · right; right
                  refine ⟨(dl.zip (ml.zip tl)).enum, ?_⟩
                  simp only [process_query_result, hd, hm, ht]
                  rw [if_pos hlen]
                · right; left
                  simp only [process_query_result, hd, hm, ht]
                  rw [if_neg hlen]

/-- A store response whose parallel arrays disagree in length. -/
def qrBad : QueryResult :=
  { documents := some [["d".toList]],
    metadatas := some [[PyObj.dict []]],
    distances := some [[0, 1]] }

/-- Witness for C8: a concrete length-mismatched response yields the
inconsistent-data message. -/
theorem semantic_search_row_robust_witness :
    process_query_result (fun _ => []) "q".toList qrBad =
      inconsistentMsg "q".toList :=
  semantic_search_row_robust.1 (fun _ => []) "q".toList qrBad _ _ _
    rfl rfl rfl (by decide)

end ADK
